import Mathlib

/-
Verification of the pivot computation engine of react-pivotgrid.

The development shallowly embeds the engine's source files
  src/components/pivot/utils/aggregations.ts
  src/components/pivot/utils/pivot-data.ts
  src/components/pivot/utils/pivot-data-async.ts
into Lean.  JavaScript scalar values are modelled by the inductive `JVal`
(numbers are restricted to integer-valued numbers, represented as `Int`;
non-integral numeric data reaches the engine as decimal strings, which the
parsing functions handle exactly, so `String(number)` formatting of
non-integral floats never has to be modelled).  JavaScript numbers produced
by arithmetic are modelled by `Rat` (exact rational arithmetic in place of
IEEE-754 doubles).  `Map`/`Set` insertion-order semantics are modelled by
association lists and first-occurrence deduplication.  Promises carry no
semantic content beyond sequencing here, so the async builder is modelled as
an `Except` computation; the `AbortSignal` is modelled by the boolean state
it has at invocation time (the embedding has no concurrent mutation).
-/

set_option maxRecDepth 10000

attribute [local semireducible] Rat.mul Rat.add Rat.sub Rat.inv

/-- Decidable equality of `Except` results, used to state and evaluate
theorems about the asynchronous builder. -/
instance {ε α : Type} [DecidableEq ε] [DecidableEq α] : DecidableEq (Except ε α) := fun x y =>
  match x, y with
  | Except.ok a, Except.ok b =>
    if h : a = b then Decidable.isTrue (by rw [h])
    else Decidable.isFalse (fun hc => h (Except.ok.inj hc))
  | Except.error a, Except.error b =>
    if h : a = b then Decidable.isTrue (by rw [h])
    else Decidable.isFalse (fun hc => h (Except.error.inj hc))
  | Except.ok _, Except.error _ => Decidable.isFalse (fun hc => Except.noConfusion hc)
  | Except.error _, Except.ok _ => Decidable.isFalse (fun hc => Except.noConfusion hc)

namespace PivotGrid

/-- A JavaScript scalar value as stored in a record field.  Numbers are
restricted to integer-valued ones (see the file header). -/
inductive JVal where
  | jnull
  | jundef
  | jbool (b : Bool)
  | jnum (n : Int)
  | jstr (s : String)
deriving DecidableEq, Repr

/-- A record (`DataItem`): a mapping from field names to scalar values,
modelled as an association list.  Property access on a missing key yields
`undefined`, as in JavaScript. -/
abbrev Rec := List (String × JVal)

/-- `item[field]`: association-list lookup, `undefined` when absent. -/
def getF (item : Rec) (field : String) : JVal :=
  (item.lookup field).getD JVal.jundef

/-- JavaScript `String(v)` on a scalar value. -/
def jvalToString : JVal → String
  | JVal.jnull => "null"
  | JVal.jundef => "undefined"
  | JVal.jbool b => if b then "true" else "false"
  | JVal.jnum n => toString n
  | JVal.jstr s => s

/-- The engine's key-coercion rule `String(item[field] ?? 'null')`. -/
def coerceField (item : Rec) (field : String) : String :=
  match getF item field with
  | JVal.jnull => "null"
  | JVal.jundef => "null"
  | v => jvalToString v

/-- Numeric value of a list of decimal digit characters. -/
def digitsVal (cs : List Char) : Nat :=
  cs.foldl (fun acc c => acc * 10 + (c.toNat - 48)) 0

/-- Whitespace skipped by JavaScript numeric parsing. -/
def isJsSpace (c : Char) : Bool :=
  c == ' ' || c == '\t' || c == '\n' || c == '\r'

/-- `10 ^ n` as a rational (kept as a `Nat` power so that it evaluates by
kernel reduction). -/
def pow10 (n : Nat) : Rat :=
  ((10 ^ n : Nat) : Rat)

/-- Scale a rational by `10 ^ e` for a signed decimal exponent. -/
def scaleByPow10 (q : Rat) (e : Int) : Rat :=
  match e with
  | Int.ofNat n => q * pow10 n
  | Int.negSucc n => q / pow10 (n + 1)

/-- JavaScript `parseFloat(s)`: skips leading whitespace, then parses the
longest prefix of the form `[+-]? digits [. digits]? ([eE] [+-]? digits)?`
(at least one mantissa digit required).  `none` models `NaN`.  The special
`Infinity` literal and overflow to `Infinity` are outside the model. -/
def parseFloatJ (s : String) : Option Rat :=
  let cs := s.data.dropWhile isJsSpace
  let signAndRest : Int × List Char :=
    match cs with
    | '+' :: rest => (1, rest)
    | '-' :: rest => (-1, rest)
    | _ => (1, cs)
  let sign := signAndRest.1
  let cs1 := signAndRest.2
  let intDigits := cs1.takeWhile Char.isDigit
  let cs2 := cs1.dropWhile Char.isDigit
  let fracAndRest : List Char × List Char :=
    match cs2 with
    | '.' :: rest => (rest.takeWhile Char.isDigit, rest.dropWhile Char.isDigit)
    | _ => ([], cs2)
  let fracDigits := fracAndRest.1
  let cs3 := fracAndRest.2
  if intDigits.isEmpty && fracDigits.isEmpty then none
  else
    let mant : Rat :=
      (digitsVal intDigits : Rat) + (digitsVal fracDigits : Rat) / pow10 fracDigits.length
    let expVal : Int :=
      match cs3 with
      | 'e' :: rest =>
        (match rest with
         | '+' :: r => if (r.takeWhile Char.isDigit).isEmpty then 0 else (digitsVal (r.takeWhile Char.isDigit) : Int)
         | '-' :: r => if (r.takeWhile Char.isDigit).isEmpty then 0 else -(digitsVal (r.takeWhile Char.isDigit) : Int)
         | _ => if (rest.takeWhile Char.isDigit).isEmpty then 0 else (digitsVal (rest.takeWhile Char.isDigit) : Int))
      | 'E' :: rest =>
        (match rest with
         | '+' :: r => if (r.takeWhile Char.isDigit).isEmpty then 0 else (digitsVal (r.takeWhile Char.isDigit) : Int)
         | '-' :: r => if (r.takeWhile Char.isDigit).isEmpty then 0 else -(digitsVal (r.takeWhile Char.isDigit) : Int)
         | _ => if (rest.takeWhile Char.isDigit).isEmpty then 0 else (digitsVal (rest.takeWhile Char.isDigit) : Int))
      | _ => 0
    some (scaleByPow10 ((sign : Rat) * mant) expVal)

/-- JavaScript `parseInt(s, 10)`: skips leading whitespace, optional sign,
then the longest run of decimal digits; `none` models `NaN`. -/
def parseIntJ (s : String) : Option Int :=
  let cs := s.data.dropWhile isJsSpace
  let signAndRest : Int × List Char :=
    match cs with
    | '+' :: rest => (1, rest)
    | '-' :: rest => (-1, rest)
    | _ => (1, cs)
  let ds := signAndRest.2.takeWhile Char.isDigit
  if ds.isEmpty then none else some (signAndRest.1 * (digitsVal ds : Int))

/-- A token of the alphanumeric collation model: a maximal digit run
(numeric value and digit count) or a single case-folded character. -/
inductive LCTok where
  | numTok (val : Nat) (len : Nat)
  | charTok (c : Char)
deriving DecidableEq, Repr

/-- Tokenize a character list into maximal digit runs and case-folded
single characters; the accumulator carries the value and digit count of a
digit run currently being read. -/
def lcTokenizeAux : List Char → Option (Nat × Nat) → List LCTok
  | [], none => []
  | [], some run => [LCTok.numTok run.1 run.2]
  | c :: cs, none =>
    if c.isDigit then lcTokenizeAux cs (some (c.toNat - 48, 1))
    else LCTok.charTok c.toLower :: lcTokenizeAux cs none
  | c :: cs, some run =>
    if c.isDigit then lcTokenizeAux cs (some (run.1 * 10 + (c.toNat - 48), run.2 + 1))
    else LCTok.numTok run.1 run.2 :: LCTok.charTok c.toLower :: lcTokenizeAux cs none

/-- Tokenize a character list into digit runs and case-folded single
characters. -/
def lcTokenize (cs : List Char) : List LCTok :=
  lcTokenizeAux cs none

/-- Compare two collation tokens: digit runs by numeric value (ties by
digit count), characters case-insensitively, digit runs before letters. -/
def lcTokCmp : LCTok → LCTok → Ordering
  | LCTok.numTok v1 l1, LCTok.numTok v2 l2 =>
    if v1 < v2 then Ordering.lt else if v2 < v1 then Ordering.gt
    else if l1 < l2 then Ordering.lt else if l2 < l1 then Ordering.gt else Ordering.eq
  | LCTok.numTok _ _, LCTok.charTok _ => Ordering.lt
  | LCTok.charTok _, LCTok.numTok _ _ => Ordering.gt
  | LCTok.charTok a, LCTok.charTok b =>
    if a < b then Ordering.lt else if b < a then Ordering.gt else Ordering.eq

/-- Lexicographic comparison of token lists. -/
def lcListCmp : List LCTok → List LCTok → Ordering
  | [], [] => Ordering.eq
  | [], _ :: _ => Ordering.lt
  | _ :: _, [] => Ordering.gt
  | a :: as, b :: bs =>
    match lcTokCmp a b with
    | Ordering.eq => lcListCmp as bs
    | o => o

/-- Model of `a.localeCompare(b, undefined, \x7b numeric: true,
sensitivity: 'base' \x7d)`: case-insensitive comparison in which maximal
digit runs compare by numeric value.  The exact ICU collation is
locale-dependent; this deterministic ASCII-faithful model captures the
numeric-sensitive, case-insensitive contract the engine relies on. -/
def localeCompareJ (a b : String) : Ordering :=
  lcListCmp (lcTokenize a.data) (lcTokenize b.data)

/-- Three-way comparison on rationals (the sign of the float `numA - numB`
returned by the source comparator). -/
def ratCmp (x y : Rat) : Ordering :=
  if x < y then Ordering.lt else if y < x then Ordering.gt else Ordering.eq

/-- The engine's `smartSort` comparator: numeric comparison when both
strings parse as floats, otherwise locale-aware numeric-sensitive string
comparison. -/
def smartSort (a b : String) : Ordering :=
  match parseFloatJ a, parseFloatJ b with
  | some x, some y => ratCmp x y
  | _, _ => localeCompareJ a b

/-- Stable insertion of one element into an already-sorted list: the new
element goes after existing elements that do not compare greater. -/
def insertSorted (x : String) : List String → List String
  | [] => [x]
  | y :: ys =>
    match smartSort x y with
    | Ordering.lt => x :: y :: ys
    | _ => y :: insertSorted x ys

/-- Stable sort by `smartSort`, modelling `Array.prototype.sort` (stable
per the ECMAScript specification). -/
def sortSmart (l : List String) : List String :=
  l.foldl (fun acc x => insertSorted x acc) []

/-- Append an element to the accumulator unless already present: one step
of JavaScript `Set` insertion (insertion-order iteration). -/
def addUnique {α : Type} [DecidableEq α] (seen : List α) (x : α) : List α :=
  if x ∈ seen then seen else seen ++ [x]

/-- The distinct elements of a list in first-occurrence order: the
iteration order of a JavaScript `Set` built from the list. -/
def distinctVals {α : Type} [DecidableEq α] (l : List α) : List α :=
  l.foldl addUnique []

/-- Coerced values of one field across a record list. -/
def coercedVals (data : List Rec) (field : String) : List String :=
  data.map (fun item => coerceField item field)

/-- Distinct coerced values of one field, in first-occurrence order (the
`Set` built by `getNestedKeys` for that field). -/
def distinctCoerced (data : List Rec) (field : String) : List String :=
  distinctVals (coercedVals data field)

/-- `values.size` for one field: the distinct coerced-value count. -/
def distinctCount (data : List Rec) (field : String) : Nat :=
  (distinctCoerced data field).length

/-- `Array.from(set).sort(smartSort)` for one field. -/
def sortedUniqueVals (data : List Rec) (field : String) : List String :=
  sortSmart (distinctCoerced data field)

/-- The thirteen aggregation kinds of `aggregations.ts`. -/
inductive AggregationFunction where
  | count
  | countUnique
  | listUnique
  | sum
  | integerSum
  | average
  | median
  | sampleVariance
  | sampleStandardDeviation
  | minimum
  | maximum
  | first
  | last
deriving DecidableEq, Repr

/-- The TypeScript string-literal name of an aggregation kind (used in
aggregated-value-map keys via template interpolation). -/
def aggName : AggregationFunction → String
  | AggregationFunction.count => "count"
  | AggregationFunction.countUnique => "countUnique"
  | AggregationFunction.listUnique => "listUnique"
  | AggregationFunction.sum => "sum"
  | AggregationFunction.integerSum => "integerSum"
  | AggregationFunction.average => "average"
  | AggregationFunction.median => "median"
  | AggregationFunction.sampleVariance => "sampleVariance"
  | AggregationFunction.sampleStandardDeviation => "sampleStandardDeviation"
  | AggregationFunction.minimum => "minimum"
  | AggregationFunction.maximum => "maximum"
  | AggregationFunction.first => "first"
  | AggregationFunction.last => "last"

/-- An aggregation result: `number | string | string[]`. -/
inductive AggVal where
  | num (q : Rat)
  | strv (s : String)
  | list (l : List String)
deriving DecidableEq, Repr

/-- The value column: `data.map(item => item[field]).filter(v => v !==
undefined && v !== null)`. -/
def valuesOf (data : List Rec) (field : String) : List JVal :=
  (data.map (fun item => getF item field)).filter
    (fun v => !(v == JVal.jundef) && !(v == JVal.jnull))

/-- `values.map(v => parseFloat(String(v))).filter(n => !isNaN(n))`, with
`NaN` modelled by `Option.none`. -/
def parsedFloats (values : List JVal) : List Rat :=
  values.filterMap (fun v => parseFloatJ (jvalToString v))

/-- `values.map(v => parseInt(String(v), 10)).filter(n => !isNaN(n))`. -/
def parsedInts (values : List JVal) : List Int :=
  values.filterMap (fun v => parseIntJ (jvalToString v))

/-- Ascending insertion for the numeric sort `(a, b) => a - b`. -/
def insertRat (x : Rat) : List Rat → List Rat
  | [] => [x]
  | y :: ys => if x < y then x :: y :: ys else y :: insertRat x ys

/-- Ascending numeric sort used by `median`. -/
def sortRats (l : List Rat) : List Rat :=
  l.foldl (fun acc x => insertRat x acc) []

/-- `aggregate(data, field, fn)` from `aggregations.ts`.  Real-valued
square root (for `sampleStandardDeviation`) is modelled by `Rat.sqrt`,
since `AggVal` carries exact rationals; no claim depends on its value. -/
def aggregate (data : List Rec) (field : String) (fn : AggregationFunction) : AggVal :=
  if data.isEmpty then AggVal.num 0
  else
    let values := valuesOf data field
    match fn with
    | AggregationFunction.count => AggVal.num (data.length : Rat)
    | AggregationFunction.countUnique => AggVal.num ((distinctVals values).length : Rat)
    | AggregationFunction.listUnique => AggVal.list ((distinctVals values).map jvalToString)
    | AggregationFunction.sum =>
      AggVal.num ((parsedFloats values).foldl (fun acc val => acc + val) 0)
    | AggregationFunction.integerSum =>
      AggVal.num (((parsedInts values).foldl (fun acc val => acc + val) 0 : Int) : Rat)
    | AggregationFunction.average =>
      let nums := parsedFloats values
      if nums.length > 0 then
        AggVal.num ((nums.foldl (fun acc val => acc + val) 0) / (nums.length : Rat))
      else AggVal.num 0
    | AggregationFunction.median =>
      let nums := sortRats (parsedFloats values)
      if nums.length = 0 then AggVal.num 0
      else
        let mid := nums.length / 2
        if nums.length % 2 ≠ 0 then AggVal.num (nums.getD mid 0)
        else AggVal.num ((nums.getD (mid - 1) 0 + nums.getD mid 0) / 2)
    | AggregationFunction.sampleVariance =>
      let nums := parsedFloats values
      if nums.length ≤ 1 then AggVal.num 0
      else
        let mean := (nums.foldl (fun acc val => acc + val) 0) / (nums.length : Rat)
        AggVal.num ((nums.foldl (fun acc val => acc + (val - mean) ^ 2) 0) / ((nums.length : Rat) - 1))
    | AggregationFunction.sampleStandardDeviation =>
      let nums := parsedFloats values
      if nums.length ≤ 1 then AggVal.num 0
      else
        let mean := (nums.foldl (fun acc val => acc + val) 0) / (nums.length : Rat)
        AggVal.num (Rat.sqrt ((nums.foldl (fun acc val => acc + (val - mean) ^ 2) 0) / ((nums.length : Rat) - 1)))
    | AggregationFunction.minimum =>
      match parsedFloats values with
      | [] => AggVal.num 0
      | n :: rest => AggVal.num (rest.foldl min n)
    | AggregationFunction.maximum =>
      match parsedFloats values with
      | [] => AggVal.num 0
      | n :: rest => AggVal.num (rest.foldl max n)
    | AggregationFunction.first =>
      match values with
      | [] => AggVal.strv ""
      | v :: _ => AggVal.strv (jvalToString v)
    | AggregationFunction.last =>
      match values.getLast? with
      | none => AggVal.strv ""
      | some v => AggVal.strv (jvalToString v)

/-- One value-field configuration: `(field, aggregation)`. -/
structure ValueFieldConfig where
  field : String
  aggregation : AggregationFunction
deriving DecidableEq, Repr

/-- One filter: a field and an allow-list of coerced string values. -/
structure FilterConfig where
  field : String
  values : List String
deriving DecidableEq, Repr

/-- The pivot configuration. -/
structure PivotConfig where
  rows : List String
  columns : List String
  values : List ValueFieldConfig
  filters : List FilterConfig
deriving DecidableEq, Repr

/-- The aggregated value map, modelled as an association list in insertion
order (JavaScript object property order for the string keys used here). -/
abbrev AggregatedValues := List (String × AggVal)

/-- One pivot cell. -/
structure PivotCell where
  value : AggregatedValues
  rowKeys : List String
  columnKeys : List String
  data : List Rec
deriving DecidableEq, Repr

/-- The full pivot table. -/
structure PivotTable where
  rowHeaders : List (List String)
  columnHeaders : List (List String)
  cells : List (List PivotCell)
  rowTotals : List AggregatedValues
  columnTotals : List AggregatedValues
  grandTotal : AggregatedValues
deriving DecidableEq, Repr

/-- `filterData` (identical in `pivot-data.ts` and `pivot-data-async.ts`):
a record passes when every filter with a non-empty allow-list contains the
record's coerced field value. -/
def filterData (data : List Rec) (filters : List FilterConfig) : List Rec :=
  data.filter (fun item =>
    filters.all (fun flt =>
      if flt.values.isEmpty then true
      else flt.values.contains (coerceField item flt.field)))

/-- `String(item[fields[i]] ?? 'null')`; an out-of-range index makes
`fields[i]` evaluate to `undefined`, so the property named `"undefined"` is
read, exactly as in JavaScript. -/
def keyAt (item : Rec) (fields : List String) (i : Nat) : String :=
  coerceField item (fields.getD i "undefined")

/-- `keys.every((key, index) => String(item[fields[index]] ?? 'null') ===
key)`. -/
def matchesKeys (item : Rec) (fields : List String) (keys : List String) : Bool :=
  keys.enum.all (fun p => keyAt item fields p.1 == p.2)

/-- `getSubsetData` (identical in both pivot source files). -/
def getSubsetData (data : List Rec) (rowKeys columnKeys : List String)
    (rowFields columnFields : List String) : List Rec :=
  data.filter (fun item =>
    matchesKeys item rowFields rowKeys && matchesKeys item columnFields columnKeys)

/-- `generateCombinations` of `getNestedKeys`: recursion over the field
list, each level iterating the sorted distinct values of its field over
all combinations of the remaining fields. -/
def combosFrom (data : List Rec) : List String → List (List String)
  | [] => [[]]
  | f :: rest =>
    (sortedUniqueVals data f).flatMap (fun v => (combosFrom data rest).map (fun sub => v :: sub))

/-- `getNestedKeys` from `pivot-data.ts`. -/
def getNestedKeys (data : List Rec) (fields : List String) : List (List String) :=
  if fields.isEmpty then [[]] else combosFrom data fields

/-- The aggregated value map for one record subset: `{"Count": n}` when no
value fields are configured, otherwise one entry per value-field
configuration keyed `"<field> (<aggregation>)"`.  This code is repeated
verbatim for cells, row totals, column totals and the grand total in both
pivot source files. -/
def aggKeyOf (vc : ValueFieldConfig) : String :=
  vc.field ++ " (" ++ aggName vc.aggregation ++ ")"

/-- See `aggKeyOf`; the shared aggregated-value-map construction. -/
def cellValueFor (valueConfigs : List ValueFieldConfig) (subset : List Rec) : AggregatedValues :=
  if valueConfigs.isEmpty then [("Count", AggVal.num (subset.length : Rat))]
  else valueConfigs.map (fun vc => (aggKeyOf vc, aggregate subset vc.field vc.aggregation))

/-- One cell of the grid (the inner loop body shared by both builders). -/
def mkCell (filteredData : List Rec) (config : PivotConfig) (rowKey colKey : List String) :
    PivotCell :=
  let subsetData := getSubsetData filteredData rowKey colKey config.rows config.columns
  { value := cellValueFor config.values subsetData
    rowKeys := rowKey
    columnKeys := colKey
    data := subsetData }

/-- One row of cells. -/
def mkRow (filteredData : List Rec) (config : PivotConfig)
    (columnKeys : List (List String)) (rowKey : List String) : List PivotCell :=
  columnKeys.map (mkCell filteredData config rowKey)

/-- One row total: the aggregated map over all records matching the row
key, ignoring column grouping. -/
def mkRowTotal (filteredData : List Rec) (config : PivotConfig) (rowKey : List String) :
    AggregatedValues :=
  cellValueFor config.values (getSubsetData filteredData rowKey [] config.rows [])

/-- One column total. -/
def mkColTotal (filteredData : List Rec) (config : PivotConfig) (colKey : List String) :
    AggregatedValues :=
  cellValueFor config.values (getSubsetData filteredData [] colKey [] config.columns)

/-- `generatePivotTable` from `pivot-data.ts`. -/
def generatePivotTable (data : List Rec) (config : PivotConfig) : PivotTable :=
  let filteredData := filterData data config.filters
  let rowKeys := getNestedKeys filteredData config.rows
  let columnKeys := getNestedKeys filteredData config.columns
  { rowHeaders := rowKeys
    columnHeaders := columnKeys
    cells := rowKeys.map (mkRow filteredData config columnKeys)
    rowTotals := rowKeys.map (mkRowTotal filteredData config)
    columnTotals := columnKeys.map (mkColTotal filteredData config)
    grandTotal := cellValueFor config.values filteredData }

/-- The axis tag carried by a validation failure. -/
inductive Axis where
  | row
  | col
deriving DecidableEq, Repr

/-- Failure conditions of the asynchronous builder: the plain
`Error('Aborted')` thrown on cancellation, and `PivotValidationError`
(field name, axis, observed distinct count).  The human-readable `message`
string of `PivotValidationError` is presentation built with
locale-dependent number formatting and is not modelled. -/
inductive PivotError where
  | abortedErr
  | validationErr (fieldName : String) (fieldType : Axis) (distinctCount : Nat)
deriving DecidableEq, Repr

/-- The validation loop of `getNestedKeysAsync`: for each field in order,
build its distinct coerced-value set and fail when its size exceeds the
threshold and an axis tag was supplied. -/
def validateFields (data : List Rec) (fieldType : Option Axis) (threshold : Nat) :
    List String → Except PivotError Unit
  | [] => Except.ok ()
  | f :: rest =>
    if threshold < distinctCount data f then
      match fieldType with
      | some ax => Except.error (PivotError.validationErr f ax (distinctCount data f))
      | none => validateFields data fieldType threshold rest
    else validateFields data fieldType threshold rest

/-- `getNestedKeysAsync` from `pivot-data-async.ts`: identical to
`getNestedKeys` except that each field's distinct-value count is validated
against the threshold before the combination step.  (Its `signal`
parameter is never read in the source body, so it does not appear here.) -/
def getNestedKeysAsync (data : List Rec) (fields : List String)
    (fieldType : Option Axis) (threshold : Nat) : Except PivotError (List (List String)) :=
  if fields.isEmpty then Except.ok [[]]
  else
    match validateFields data fieldType threshold fields with
    | Except.error e => Except.error e
    | Except.ok _ => Except.ok (combosFrom data fields)

/-- The chunked cell/row-total loop of `generatePivotTableAsync`: at the
start of every 100th row the computation yields (no observable effect in
the model) and checks the abort flag. -/
def buildRowsExc (aborted : Bool) (filteredData : List Rec) (config : PivotConfig)
    (columnKeys : List (List String)) (i : Nat) :
    List (List String) → Except PivotError (List (List PivotCell) × List AggregatedValues)
  | [] => Except.ok ([], [])
  | rowKey :: rest =>
    if i % 100 == 0 && aborted then Except.error PivotError.abortedErr
    else
      match buildRowsExc aborted filteredData config columnKeys (i + 1) rest with
      | Except.error e => Except.error e
      | Except.ok (cells, totals) =>
        Except.ok (mkRow filteredData config columnKeys rowKey :: cells,
                   mkRowTotal filteredData config rowKey :: totals)

/-- The chunked column-total loop of `generatePivotTableAsync`. -/
def buildColTotalsExc (aborted : Bool) (filteredData : List Rec) (config : PivotConfig)
    (i : Nat) : List (List String) → Except PivotError (List AggregatedValues)
  | [] => Except.ok []
  | colKey :: rest =>
    if i % 100 == 0 && aborted then Except.error PivotError.abortedErr
    else
      match buildColTotalsExc aborted filteredData config (i + 1) rest with
      | Except.error e => Except.error e
      | Except.ok totals => Except.ok (mkColTotal filteredData config colKey :: totals)

/-- `generatePivotTableAsync` from `pivot-data-async.ts`.  `aborted` is
the state of the caller's `AbortSignal`, constant throughout one run of
the embedding; the zero-delay yields carry no semantic content. -/
def generatePivotTableAsync (data : List Rec) (config : PivotConfig)
    (aborted : Bool) (pivotItemThreshold : Nat) : Except PivotError PivotTable :=
  let filteredData := filterData data config.filters
  if aborted then Except.error PivotError.abortedErr
  else
    match getNestedKeysAsync filteredData config.rows (some Axis.row) pivotItemThreshold with
    | Except.error e => Except.error e
    | Except.ok rowKeys =>
      match getNestedKeysAsync filteredData config.columns (some Axis.col) pivotItemThreshold with
      | Except.error e => Except.error e
      | Except.ok columnKeys =>
        if aborted then Except.error PivotError.abortedErr
        else
          match buildRowsExc aborted filteredData config columnKeys 0 rowKeys with
          | Except.error e => Except.error e
          | Except.ok built =>
            if aborted then Except.error PivotError.abortedErr
            else
              match buildColTotalsExc aborted filteredData config 0 columnKeys with
              | Except.error e => Except.error e
              | Except.ok columnTotals =>
                Except.ok
                  { rowHeaders := rowKeys
                    columnHeaders := columnKeys
                    cells := built.1
                    rowTotals := built.2
                    columnTotals := columnTotals
                    grandTotal := cellValueFor config.values filteredData }

/-! ## Basic lemmas about deduplication and sorting -/

theorem addUnique_sub {α : Type} [DecidableEq α] (seen : List α) (x y : α)
    (h : y ∈ addUnique seen x) : y ∈ seen ∨ y = x := by
  unfold addUnique at h
  by_cases hc : x ∈ seen
  · simp [hc] at h
    exact Or.inl h
  · simp [hc] at h
    rcases h with h | h
    · exact Or.inl h
    · exact Or.inr h

theorem mem_addUnique_left {α : Type} [DecidableEq α] (seen : List α) (x y : α)
    (h : y ∈ seen) : y ∈ addUnique seen x := by
  unfold addUnique
  by_cases hc : x ∈ seen <;> simp [hc, h]

theorem mem_addUnique_self {α : Type} [DecidableEq α] (seen : List α) (x : α) :
    x ∈ addUnique seen x := by
  unfold addUnique
  by_cases hc : x ∈ seen <;> simp [hc]

theorem addUnique_nodup {α : Type} [DecidableEq α] (seen : List α) (x : α)
    (h : seen.Nodup) : (addUnique seen x).Nodup := by
  unfold addUnique
  by_cases hc : x ∈ seen
  · simp [hc, h]
  · simp only [if_neg hc]
    rw [List.nodup_append]
    refine ⟨h, List.nodup_singleton x, ?_⟩
    intro a ha hax
    simp at hax
    subst hax
    exact hc ha

theorem foldl_addUnique_mem {α : Type} [DecidableEq α] (l : List α) :
    ∀ (acc : List α) (y : α), y ∈ l.foldl addUnique acc ↔ y ∈ acc ∨ y ∈ l := by
  induction l with
  | nil => intro acc y; simp
  | cons x xs ih =>
    intro acc y
    simp only [List.foldl_cons]
    rw [ih]
    constructor
    · rintro (h | h)
      · rcases addUnique_sub acc x y h with h1 | h1
        · exact Or.inl h1
        · rw [h1]; exact Or.inr (List.mem_cons_self x xs)
      · exact Or.inr (List.mem_cons_of_mem x h)
    · rintro (h | h)
      · exact Or.inl (mem_addUnique_left acc x y h)
      · rcases List.mem_cons.mp h with h1 | h1
        · subst h1; exact Or.inl (mem_addUnique_self acc y)
        · exact Or.inr h1

theorem foldl_addUnique_nodup {α : Type} [DecidableEq α] (l : List α) :
    ∀ (acc : List α), acc.Nodup → (l.foldl addUnique acc).Nodup := by
  induction l with
  | nil => intro acc h; simpa using h
  | cons x xs ih =>
    intro acc h
    simp only [List.foldl_cons]
    exact ih (addUnique acc x) (addUnique_nodup acc x h)

theorem mem_distinctVals {α : Type} [DecidableEq α] (l : List α) (y : α) :
    y ∈ distinctVals l ↔ y ∈ l := by
  unfold distinctVals
  rw [foldl_addUnique_mem]
  simp

theorem distinctVals_nodup {α : Type} [DecidableEq α] (l : List α) :
    (distinctVals l).Nodup :=
  foldl_addUnique_nodup l [] List.nodup_nil

theorem insertSorted_perm (x : String) (l : List String) :
    List.Perm (insertSorted x l) (x :: l) := by
  induction l with
  | nil => simp [insertSorted]
  | cons y ys ih =>
    unfold insertSorted
    cases smartSort x y with
    | lt => exact List.Perm.refl _
    | eq =>
      exact List.Perm.trans (List.Perm.cons y ih) (List.Perm.swap x y ys)
    | gt =>
      exact List.Perm.trans (List.Perm.cons y ih) (List.Perm.swap x y ys)

theorem foldl_insertSorted_perm (l : List String) :
    ∀ acc : List String, List.Perm (l.foldl (fun acc x => insertSorted x acc) acc) (acc ++ l) := by
  induction l with
  | nil => intro acc; simp
  | cons x xs ih =>
    intro acc
    simp only [List.foldl_cons]
    refine List.Perm.trans (ih (insertSorted x acc)) ?_
    have h1 : List.Perm (insertSorted x acc) (x :: acc) := insertSorted_perm x acc
    refine List.Perm.trans (List.Perm.append_right xs h1) ?_
    have h2 : List.Perm (x :: (acc ++ xs)) (acc ++ x :: xs) :=
      (List.perm_middle).symm
    exact List.Perm.trans (List.Perm.refl _) h2

theorem sortSmart_perm (l : List String) : List.Perm (sortSmart l) l := by
  unfold sortSmart
  simpa using foldl_insertSorted_perm l []

theorem mem_sortSmart (l : List String) (y : String) :
    y ∈ sortSmart l ↔ y ∈ l :=
  (sortSmart_perm l).mem_iff

theorem sortSmart_nodup (l : List String) (h : l.Nodup) : (sortSmart l).Nodup :=
  ((sortSmart_perm l).nodup_iff).mpr h

theorem mem_sortedUniqueVals (data : List Rec) (field : String) (y : String) :
    y ∈ sortedUniqueVals data field ↔ y ∈ coercedVals data field := by
  unfold sortedUniqueVals distinctCoerced
  rw [mem_sortSmart, mem_distinctVals]

theorem sortedUniqueVals_nodup (data : List Rec) (field : String) :
    (sortedUniqueVals data field).Nodup :=
  sortSmart_nodup _ (distinctVals_nodup _)

/-! ## The key space: membership, length and distinctness of `combosFrom` -/

/-- The coerced key tuple of one record along a field list. -/
def coerceTuple (item : Rec) (fields : List String) : List String :=
  fields.map (fun f => coerceField item f)

theorem getNestedKeys_eq_combosFrom (data : List Rec) (fields : List String) :
    getNestedKeys data fields = combosFrom data fields := by
  cases fields with
  | nil => simp [getNestedKeys, combosFrom]
  | cons f fs => simp [getNestedKeys]

theorem mem_combosFrom (data : List Rec) (fields : List String) (k : List String) :
    k ∈ combosFrom data fields ↔
      List.Forall₂ (fun v f => v ∈ coercedVals data f) k fields := by
  induction fields generalizing k with
  | nil =>
    simp only [combosFrom, List.mem_singleton]
    constructor
    · intro h; subst h; exact List.Forall₂.nil
    · intro h; cases h; rfl
  | cons f fs ih =>
    simp only [combosFrom, List.mem_flatMap, List.mem_map]
    constructor
    · rintro ⟨v, hv, sub, hsub, rfl⟩
      exact List.Forall₂.cons ((mem_sortedUniqueVals data f v).mp hv) ((ih sub).mp hsub)
    · intro h
      cases h with
      | cons hv hsub =>
        refine ⟨_, (mem_sortedUniqueVals data f _).mpr hv, ⟨_, (ih _).mpr hsub, rfl⟩⟩

theorem length_of_mem_combosFrom (data : List Rec) (fields : List String) (k : List String)
    (h : k ∈ combosFrom data fields) : k.length = fields.length :=
  ((mem_combosFrom data fields k).mp h).length_eq

theorem coerceTuple_mem_combosFrom (data : List Rec) (fields : List String) (item : Rec)
    (h : item ∈ data) : coerceTuple item fields ∈ combosFrom data fields := by
  rw [mem_combosFrom]
  induction fields with
  | nil => exact List.Forall₂.nil
  | cons f fs ih =>
    exact List.Forall₂.cons (List.mem_map.mpr ⟨item, h, rfl⟩) ih

theorem nodup_flatMap_cons (values : List String) (subs : List (List String))
    (hv : values.Nodup) (hs : subs.Nodup) :
    (values.flatMap (fun v => subs.map (fun sub => v :: sub))).Nodup := by
  induction values with
  | nil => simp
  | cons v vs ih =>
    simp only [List.flatMap_cons]
    rw [List.nodup_append]
    refine ⟨?_, ih (List.Nodup.of_cons hv), ?_⟩
    · exact List.Nodup.map (fun a b hab => List.cons.inj hab |>.2) hs
    · intro x hx hx2
      rcases List.mem_map.mp hx with ⟨sub, _, rfl⟩
      rcases List.mem_flatMap.mp hx2 with ⟨v2, hv2, hxin⟩
      rcases List.mem_map.mp hxin with ⟨sub2, _, heq⟩
      have hvv : v = v2 := (List.cons.inj heq.symm).1
      rw [List.nodup_cons] at hv
      exact hv.1 (hvv ▸ hv2)

theorem combosFrom_nodup (data : List Rec) (fields : List String) :
    (combosFrom data fields).Nodup := by
  induction fields with
  | nil => simp [combosFrom]
  | cons f fs ih =>
    exact nodup_flatMap_cons _ _ (sortedUniqueVals_nodup data f) ih

/-! ## `matchesKeys`: a full-length key matches exactly the record's tuple -/

theorem keyAt_tail (item : Rec) (fields : List String) (i : Nat) :
    keyAt item fields (i + 1) = keyAt item fields.tail i := by
  cases fields <;> rfl

theorem enumFrom_all_shift (item : Rec) (fields : List String) (ks : List String) :
    ∀ n, ((List.enumFrom (n + 1) ks).all (fun p => keyAt item fields p.1 == p.2)) =
      ((List.enumFrom n ks).all (fun p => keyAt item fields.tail p.1 == p.2)) := by
  induction ks with
  | nil => intro n; rfl
  | cons k ks ih =>
    intro n
    simp only [List.enumFrom_cons, List.all_cons]
    rw [keyAt_tail, ih (n + 1)]

theorem matchesKeys_nil (item : Rec) (fields : List String) :
    matchesKeys item fields [] = true := rfl

theorem matchesKeys_cons (item : Rec) (fields : List String) (k : String) (ks : List String) :
    matchesKeys item fields (k :: ks) =
      ((keyAt item fields 0 == k) && matchesKeys item fields.tail ks) := by
  unfold matchesKeys
  show ((List.enumFrom 0 (k :: ks)).all fun p => keyAt item fields p.1 == p.2) = _
  simp only [List.enumFrom_cons, List.all_cons]
  rw [enumFrom_all_shift item fields ks 0]
  rfl

theorem matchesKeys_iff_eq_tuple (item : Rec) (fields keys : List String)
    (hlen : keys.length = fields.length) :
    (matchesKeys item fields keys = true ↔ keys = coerceTuple item fields) := by
  induction keys generalizing fields with
  | nil =>
    cases fields with
    | nil => simp [matchesKeys_nil, coerceTuple]
    | cons f fs => simp at hlen
  | cons k ks ih =>
    cases fields with
    | nil => simp at hlen
    | cons f fs =>
      rw [matchesKeys_cons]
      have h0 : keyAt item (f :: fs) 0 = coerceField item f := rfl
      simp only [List.tail_cons, Bool.and_eq_true, beq_iff_eq, h0]
      rw [ih fs (by simpa using hlen)]
      constructor
      · rintro ⟨h1, h2⟩
        simp [coerceTuple] at h2 ⊢
        exact ⟨h1.symm ▸ rfl, h2⟩
      · intro h
        simp [coerceTuple] at h ⊢
        exact ⟨h.1.symm, by simp [coerceTuple, h.2]⟩

theorem matchesKeys_self (item : Rec) (fields : List String) :
    matchesKeys item fields (coerceTuple item fields) = true :=
  (matchesKeys_iff_eq_tuple item fields _ (by simp [coerceTuple])).mpr rfl

theorem mem_getSubsetData (data : List Rec) (rk ck rf cf : List String) (item : Rec) :
    item ∈ getSubsetData data rk ck rf cf ↔
      item ∈ data ∧ matchesKeys item rf rk = true ∧ matchesKeys item cf ck = true := by
  unfold getSubsetData
  rw [List.mem_filter, Bool.and_eq_true]

/-! ## Partition of a record list by a complete, duplicate-free key list -/

theorem filter_filter_of_imp (l : List Rec) (p1 p2 : Rec → Bool)
    (h : ∀ x ∈ l, p1 x = true → p2 x = true) :
    (l.filter p2).filter p1 = l.filter p1 := by
  induction l with
  | nil => rfl
  | cons x xs ih =>
    have hx := h x (List.mem_cons_self x xs)
    have hrest : ∀ y ∈ xs, p1 y = true → p2 y = true :=
      fun y hy => h y (List.mem_cons_of_mem x hy)
    by_cases h2 : p2 x = true
    · by_cases h1 : p1 x = true
      · simp [List.filter_cons, h1, h2, ih hrest]
      · simp [List.filter_cons, h1, h2, ih hrest]
    · have h1 : p1 x = false := by
        cases hp : p1 x
        · rfl
        · exact absurd (hx hp) h2
      simp [List.filter_cons, h1, h2, ih hrest]

theorem sum_filter_add_sum_filter_not (l : List Rec) (q : Rec → Bool) (f : Rec → Rat) :
    ((l.filter q).map f).sum + ((l.filter (fun x => !(q x))).map f).sum = (l.map f).sum := by
  induction l with
  | nil => simp
  | cons x xs ih =>
    cases hq : q x with
    | true =>
      simp [List.filter_cons, hq]
      linarith [ih]
    | false =>
      simp [List.filter_cons, hq]
      linarith [ih]

theorem sum_partition (f : Rec → Rat) (p : Rec → List String → Bool) (g : Rec → List String) :
    ∀ (keys : List (List String)) (sub : List Rec),
      keys.Nodup →
      (∀ x ∈ sub, g x ∈ keys) →
      (∀ x ∈ sub, ∀ k ∈ keys, (p x k = true ↔ g x = k)) →
      (keys.map (fun k => ((sub.filter (fun x => p x k)).map f).sum)).sum = (sub.map f).sum := by
  intro keys
  induction keys with
  | nil =>
    intro sub _ hcover _
    cases sub with
    | nil => simp
    | cons x xs => exact absurd (hcover x (List.mem_cons_self x xs)) (List.not_mem_nil _)
  | cons k rest ih =>
    intro sub hnd hcover hcompat
    rw [List.nodup_cons] at hnd
    simp only [List.map_cons, List.sum_cons]
    have hsplit :
        ((sub.filter (fun x => p x k)).map f).sum
          + ((sub.filter (fun x => !(p x k))).map f).sum = (sub.map f).sum :=
      sum_filter_add_sum_filter_not sub (fun x => p x k) f
    set sub2 := sub.filter (fun x => !(p x k)) with hsub2
    have hmemsub2 : ∀ x ∈ sub2, x ∈ sub ∧ p x k = false := by
      intro x hx
      rw [hsub2, List.mem_filter] at hx
      exact ⟨hx.1, by simpa using hx.2⟩
    have hcover2 : ∀ x ∈ sub2, g x ∈ rest := by
      intro x hx
      rcases hmemsub2 x hx with ⟨hxs, hpf⟩
      have hg := hcover x hxs
      rcases List.mem_cons.mp hg with hk | hr
      · have := (hcompat x hxs k (List.mem_cons_self k rest)).mpr hk
        rw [this] at hpf
        exact absurd hpf (by simp)
      · exact hr
    have hcompat2 : ∀ x ∈ sub2, ∀ k2 ∈ rest, (p x k2 = true ↔ g x = k2) := by
      intro x hx k2 hk2
      exact hcompat x (hmemsub2 x hx).1 k2 (List.mem_cons_of_mem k hk2)
    have hsame : ∀ k2 ∈ rest,
        sub.filter (fun x => p x k2) = sub2.filter (fun x => p x k2) := by
      intro k2 hk2
      rw [hsub2]
      refine (filter_filter_of_imp sub _ _ ?_).symm
      intro x hxs hpx
      have hg : g x = k2 := (hcompat x hxs k2 (List.mem_cons_of_mem k hk2)).mp hpx
      have hne : g x ≠ k := by
        intro hc
        exact hnd.1 (by rw [← hg, hc] at hk2; exact hk2)
      have : ¬(p x k = true) := by
        intro hc
        exact hne ((hcompat x hxs k (List.mem_cons_self k rest)).mp hc)
      simpa using this
    have hmapeq :
        (rest.map (fun k2 => ((sub.filter (fun x => p x k2)).map f).sum)).sum
          = (rest.map (fun k2 => ((sub2.filter (fun x => p x k2)).map f).sum)).sum := by
      refine congrArg List.sum (List.map_congr_left ?_)
      intro k2 hk2
      rw [hsame k2 hk2]
    rw [hmapeq, ih sub2 hnd.2 hcover2 hcompat2, ← hsplit, hsub2]

/-! ## Additivity of the sum-type aggregations -/

/-- The contribution of one record to the `sum` aggregation: `0` for a
missing/null field value or an unparseable one. -/
def sumContrib (field : String) (item : Rec) : Rat :=
  match getF item field with
  | JVal.jnull => 0
  | JVal.jundef => 0
  | v => (parseFloatJ (jvalToString v)).getD 0

/-- The contribution of one record to the `integerSum` aggregation. -/
def intContrib (field : String) (item : Rec) : Int :=
  match getF item field with
  | JVal.jnull => 0
  | JVal.jundef => 0
  | v => (parseIntJ (jvalToString v)).getD 0

/-- The per-record contribution of the three additively decomposable
aggregations (`0` for the others, which are not additive). -/
def aggContrib (fn : AggregationFunction) (field : String) (item : Rec) : Rat :=
  match fn with
  | AggregationFunction.sum => sumContrib field item
  | AggregationFunction.count => 1
  | AggregationFunction.integerSum => ((intContrib field item : Int) : Rat)
  | _ => 0

theorem foldl_add_eq_sum (l : List Rat) : ∀ a : Rat, l.foldl (fun acc val => acc + val) a = a + l.sum := by
  induction l with
  | nil => intro a; simp
  | cons x xs ih =>
    intro a
    simp only [List.foldl_cons, List.sum_cons, ih (a + x)]
    ring

theorem foldl_add_eq_sum_int (l : List Int) : ∀ a : Int, l.foldl (fun acc val => acc + val) a = a + l.sum := by
  induction l with
  | nil => intro a; simp
  | cons x xs ih =>
    intro a
    simp only [List.foldl_cons, List.sum_cons, ih (a + x)]
    ring

theorem parsedFloats_valuesOf_sum (field : String) (data : List Rec) :
    (parsedFloats (valuesOf data field)).sum = (data.map (sumContrib field)).sum := by
  induction data with
  | nil => rfl
  | cons x xs ih =>
    have hval : valuesOf (x :: xs) field =
        if !(getF x field == JVal.jundef) && !(getF x field == JVal.jnull)
        then getF x field :: valuesOf xs field else valuesOf xs field := by
      unfold valuesOf
      simp [List.filter_cons]
    by_cases hnn : (!(getF x field == JVal.jundef) && !(getF x field == JVal.jnull)) = true
    · rw [hval, if_pos hnn]
      have hcontrib : sumContrib field x = (parseFloatJ (jvalToString (getF x field))).getD 0 := by
        unfold sumContrib
        rcases hv : getF x field with _ | _ | b | n | s <;> simp_all
      cases hp : parseFloatJ (jvalToString (getF x field)) with
      | none =>
        have hpf : parsedFloats (getF x field :: valuesOf xs field)
            = parsedFloats (valuesOf xs field) := by
          unfold parsedFloats
          rw [List.filterMap_cons, hp]
        rw [hpf, ih]
        have hc0 : sumContrib field x = 0 := by rw [hcontrib, hp]; rfl
        simp [hc0]
      | some q =>
        have hpf : parsedFloats (getF x field :: valuesOf xs field)
            = q :: parsedFloats (valuesOf xs field) := by
          unfold parsedFloats
          rw [List.filterMap_cons, hp]
        rw [hpf, List.sum_cons, ih]
        have hcq : sumContrib field x = q := by rw [hcontrib, hp]; rfl
        simp [hcq]
    · rw [hval, if_neg hnn]
      have hcontrib : sumContrib field x = 0 := by
        unfold sumContrib
        rcases hv : getF x field with _ | _ | b | n | s <;> simp_all
      rw [ih]
      simp [hcontrib]

theorem parsedInts_valuesOf_sum (field : String) (data : List Rec) :
    (parsedInts (valuesOf data field)).sum = (data.map (intContrib field)).sum := by
  induction data with
  | nil => rfl
  | cons x xs ih =>
    have hval : valuesOf (x :: xs) field =
        if !(getF x field == JVal.jundef) && !(getF x field == JVal.jnull)
        then getF x field :: valuesOf xs field else valuesOf xs field := by
      unfold valuesOf
      simp [List.filter_cons]
    by_cases hnn : (!(getF x field == JVal.jundef) && !(getF x field == JVal.jnull)) = true
    · rw [hval, if_pos hnn]
      have hcontrib : intContrib field x = (parseIntJ (jvalToString (getF x field))).getD 0 := by
        unfold intContrib
        rcases hv : getF x field with _ | _ | b | n | s <;> simp_all
      cases hp : parseIntJ (jvalToString (getF x field)) with
      | none =>
        have hpf : parsedInts (getF x field :: valuesOf xs field)
            = parsedInts (valuesOf xs field) := by
          unfold parsedInts
          rw [List.filterMap_cons, hp]
        rw [hpf, ih]
        have hc0 : intContrib field x = 0 := by rw [hcontrib, hp]; rfl
        simp [hc0]
      | some q =>
        have hpf : parsedInts (getF x field :: valuesOf xs field)
            = q :: parsedInts (valuesOf xs field) := by
          unfold parsedInts
          rw [List.filterMap_cons, hp]
        rw [hpf, List.sum_cons, ih]
        have hcq : intContrib field x = q := by rw [hcontrib, hp]; rfl
        simp [hcq]
    · rw [hval, if_neg hnn]
      have hcontrib : intContrib field x = 0 := by
        unfold intContrib
        rcases hv : getF x field with _ | _ | b | n | s <;> simp_all
      rw [ih]
      simp [hcontrib]

theorem cast_sum_int_map (field : String) (data : List Rec) :
    (((data.map (intContrib field)).sum : Int) : Rat)
      = (data.map (fun item => ((intContrib field item : Int) : Rat))).sum := by
  induction data with
  | nil => simp
  | cons x xs ih => simp [ih]

theorem sum_const_one (l : List Rec) : (l.map (fun _ => (1 : Rat))).sum = (l.length : Rat) := by
  induction l with
  | nil => simp
  | cons x xs ih => simp [ih]; ring

/-- `aggregate` for `sum`, `count` and `integerSum` is the sum of
per-record contributions. -/
theorem aggregate_eq_sum_contrib (data : List Rec) (field : String)
    (fn : AggregationFunction)
    (h : fn = AggregationFunction.sum ∨ fn = AggregationFunction.count ∨
         fn = AggregationFunction.integerSum) :
    aggregate data field fn = AggVal.num ((data.map (aggContrib fn field)).sum) := by
  cases hd : data with
  | nil =>
    rcases h with h | h | h <;> subst h <;> rfl
  | cons x xs =>
    have hne : (data.isEmpty) = false := by rw [hd]; rfl
    rw [← hd]
    rcases h with h | h | h <;> subst h
    · unfold aggregate
      rw [if_neg (by simp [hne])]
      show AggVal.num ((parsedFloats (valuesOf data field)).foldl (fun acc val => acc + val) 0)
          = AggVal.num ((data.map (aggContrib AggregationFunction.sum field)).sum)
      rw [foldl_add_eq_sum, zero_add, parsedFloats_valuesOf_sum]
      rfl
    · unfold aggregate
      rw [if_neg (by simp [hne])]
      show AggVal.num ((data.length : Rat))
          = AggVal.num ((data.map (fun _ => (1 : Rat))).sum)
      rw [sum_const_one]
    · unfold aggregate
      rw [if_neg (by simp [hne])]
      show AggVal.num (((parsedInts (valuesOf data field)).foldl (fun acc val => acc + val) 0 : Int) : Rat)
          = AggVal.num ((data.map (aggContrib AggregationFunction.integerSum field)).sum)
      rw [foldl_add_eq_sum_int, zero_add, parsedInts_valuesOf_sum, cast_sum_int_map]
      rfl

/-! ## Reduction of the asynchronous builder when nothing fails -/

theorem validateFields_ok (data : List Rec) (ft : Option Axis) (threshold : Nat)
    (fields : List String)
    (h : ∀ f ∈ fields, distinctCount data f ≤ threshold) :
    validateFields data ft threshold fields = Except.ok () := by
  induction fields with
  | nil => rfl
  | cons f fs ih =>
    unfold validateFields
    rw [if_neg (Nat.not_lt.mpr (h f (List.mem_cons_self f fs)))]
    exact ih (fun g hg => h g (List.mem_cons_of_mem f hg))

theorem getNestedKeysAsync_ok (data : List Rec) (fields : List String) (ft : Option Axis)
    (threshold : Nat)
    (h : ∀ f ∈ fields, distinctCount data f ≤ threshold) :
    getNestedKeysAsync data fields ft threshold = Except.ok (getNestedKeys data fields) := by
  unfold getNestedKeysAsync getNestedKeys
  by_cases he : fields.isEmpty
  · rw [if_pos he, if_pos he]
  · rw [if_neg he, if_neg he, validateFields_ok data ft threshold fields h]

theorem buildRowsExc_false (filteredData : List Rec) (config : PivotConfig)
    (columnKeys : List (List String)) :
    ∀ (keys : List (List String)) (i : Nat),
      buildRowsExc false filteredData config columnKeys i keys
        = Except.ok (keys.map (mkRow filteredData config columnKeys),
                     keys.map (mkRowTotal filteredData config)) := by
  intro keys
  induction keys with
  | nil => intro i; rfl
  | cons k ks ih =>
    intro i
    unfold buildRowsExc
    rw [if_neg (by simp)]
    rw [ih (i + 1)]
    rfl

theorem buildColTotalsExc_false (filteredData : List Rec) (config : PivotConfig) :
    ∀ (keys : List (List String)) (i : Nat),
      buildColTotalsExc false filteredData config i keys
        = Except.ok (keys.map (mkColTotal filteredData config)) := by
  intro keys
  induction keys with
  | nil => intro i; rfl
  | cons k ks ih =>
    intro i
    unfold buildColTotalsExc
    rw [if_neg (by simp)]
    rw [ih (i + 1)]
    rfl

/-- Core refinement: with no abort and per-field cardinality within the
limit on both axes, the asynchronous builder returns exactly the
synchronous builder's table. -/
theorem generatePivotTableAsync_ok (data : List Rec) (config : PivotConfig) (limit : Nat)
    (hrows : ∀ f ∈ config.rows, distinctCount (filterData data config.filters) f ≤ limit)
    (hcols : ∀ f ∈ config.columns, distinctCount (filterData data config.filters) f ≤ limit) :
    generatePivotTableAsync data config false limit
      = Except.ok (generatePivotTable data config) := by
  unfold generatePivotTableAsync
  rw [if_neg (by simp)]
  rw [getNestedKeysAsync_ok _ _ _ _ hrows, getNestedKeysAsync_ok _ _ _ _ hcols]
  simp only []
  rw [if_neg (by simp)]
  rw [buildRowsExc_false, buildColTotalsExc_false]
  rfl

/-- C1.  If every grouping field's distinct coerced-value count over the
filtered records is at most the limit and cancellation is never requested,
`generatePivotTableAsync` resolves to exactly the `PivotTable` produced by
the synchronous `generatePivotTable` (all six components equal). -/
theorem c1_async_refines_sync (data : List Rec) (config : PivotConfig) (limit : Nat)
    (h : ∀ f ∈ config.rows ++ config.columns,
        distinctCount (filterData data config.filters) f ≤ limit) :
    generatePivotTableAsync data config false limit
      = Except.ok (generatePivotTable data config) :=
  generatePivotTableAsync_ok data config limit
    (fun f hf => h f (List.mem_append.mpr (Or.inl hf)))
    (fun f hf => h f (List.mem_append.mpr (Or.inr hf)))

/-- Closed witness for C1 on the spec's six-record example. -/
def exampleRecord (r p : String) (s : Int) : Rec :=
  [("region", JVal.jstr r), ("product", JVal.jstr p), ("sales", JVal.jnum s)]

/-- The spec's example data set (§8). -/
def exampleData : List Rec :=
  [exampleRecord "North" "A" 100, exampleRecord "North" "B" 150,
   exampleRecord "South" "A" 200, exampleRecord "South" "B" 120,
   exampleRecord "East" "A" 90, exampleRecord "West" "B" 160]

/-- The spec's example configuration (§8). -/
def exampleConfig : PivotConfig :=
  { rows := ["region"]
    columns := ["product"]
    values := [{ field := "sales", aggregation := AggregationFunction.sum }]
    filters := [] }

theorem c1_async_refines_sync_witness :
    generatePivotTableAsync exampleData exampleConfig false 4
      = Except.ok (generatePivotTable exampleData exampleConfig) :=
  c1_async_refines_sync exampleData exampleConfig 4 (by decide)

/-! ## Row-total consistency for the additive aggregations (C2) -/

/-- The numeric value stored under a key of an aggregated value map (`0`
when the key is absent or holds a non-numeric result). -/
def lookupNum (m : AggregatedValues) (k : String) : Rat :=
  match m.lookup k with
  | some (AggVal.num q) => q
  | _ => 0

theorem getD_of_lt {α : Type} (l : List α) (r : Nat) (d : α) (h : r < l.length) :
    l.getD r d = l[r] := by
  rw [List.getD_eq_getElem?_getD, List.getElem?_eq_getElem h]
  rfl

/-- A cell subset is the row subset further filtered by the column key. -/
theorem cellSubset_eq_rowData_filter (F : List Rec) (rk ck rows cols : List String) :
    getSubsetData F rk ck rows cols
      = (getSubsetData F rk [] rows []).filter (fun x => matchesKeys x cols ck) := by
  unfold getSubsetData
  rw [List.filter_filter]
  refine List.filter_congr ?_
  intro x hx
  have hnil : matchesKeys x [] [] = true := rfl
  cases h1 : matchesKeys x rows rk <;> cases h2 : matchesKeys x cols ck <;>
    simp [hnil, h1, h2]

/-- The first entry of the aggregated-value map that carries a given key,
together with the fact that the same entry resolves the key for every
record subset. -/
theorem lookup_mapAgg (configs : List ValueFieldConfig) (k : String) (vc : ValueFieldConfig)
    (hvc : vc ∈ configs) (hk : aggKeyOf vc = k) :
    ∃ vc0, vc0 ∈ configs ∧ aggKeyOf vc0 = k ∧
      ∀ subset : List Rec,
        (configs.map (fun c => (aggKeyOf c, aggregate subset c.field c.aggregation))).lookup k
          = some (aggregate subset vc0.field vc0.aggregation) := by
  induction configs with
  | nil => exact absurd hvc (List.not_mem_nil vc)
  | cons c cs ih =>
    by_cases hc : aggKeyOf c = k
    · refine ⟨c, List.mem_cons_self c cs, hc, ?_⟩
      intro subset
      simp only [List.map_cons, List.lookup_cons]
      have hbeq : (k == aggKeyOf c) = true := by simp [hc]
      rw [hbeq]
    · have hvcs : vc ∈ cs := by
        rcases List.mem_cons.mp hvc with h | h
        · exact absurd (h ▸ hk) hc
        · exact h
      rcases ih hvcs with ⟨vc0, hvc0, hkey0, hlook⟩
      refine ⟨vc0, List.mem_cons_of_mem c hvc0, hkey0, ?_⟩
      intro subset
      simp only [List.map_cons, List.lookup_cons]
      have hbeq : (k == aggKeyOf c) = false := by simp [Ne.symm hc]
      rw [hbeq]
      exact hlook subset

/-- The partition identity for one row: for each additive aggregation the
row-subset contribution total equals the sum over the column key space of
the cell-subset contribution totals. -/
theorem row_partition_sum (F : List Rec) (rows cols : List String) (rk : List String)
    (fn : AggregationFunction) (field : String) :
    ((combosFrom F cols).map (fun ck =>
        ((getSubsetData F rk ck rows cols).map (aggContrib fn field)).sum)).sum
      = ((getSubsetData F rk [] rows []).map (aggContrib fn field)).sum := by
  have hcover : ∀ x ∈ getSubsetData F rk [] rows [], coerceTuple x cols ∈ combosFrom F cols := by
    intro x hx
    have hxF : x ∈ F := ((mem_getSubsetData F rk [] rows [] x).mp hx).1
    exact coerceTuple_mem_combosFrom F cols x hxF
  have hcompat : ∀ x ∈ getSubsetData F rk [] rows [], ∀ k ∈ combosFrom F cols,
      (matchesKeys x cols k = true ↔ coerceTuple x cols = k) := by
    intro x _ k hkmem
    rw [matchesKeys_iff_eq_tuple x cols k (length_of_mem_combosFrom F cols k hkmem)]
    exact eq_comm
  have hpart := sum_partition (aggContrib fn field) (fun x k => matchesKeys x cols k)
    (fun x => coerceTuple x cols) (combosFrom F cols) (getSubsetData F rk [] rows [])
    (combosFrom_nodup F cols) hcover hcompat
  rw [← hpart]
  refine congrArg List.sum (List.map_congr_left ?_)
  intro ck _
  rw [cellSubset_eq_rowData_filter]

/-- C2.  When every configured value-field aggregation is `sum`, `count`
or `integerSum`, each row total equals the sum of the corresponding value
across that row's cells. -/
theorem c2_row_total_consistency (data : List Rec) (config : PivotConfig)
    (hagg : ∀ vc ∈ config.values,
      vc.aggregation = AggregationFunction.sum ∨ vc.aggregation = AggregationFunction.count ∨
      vc.aggregation = AggregationFunction.integerSum)
    (r : Nat) (hr : r < (generatePivotTable data config).rowTotals.length)
    (vc : ValueFieldConfig) (hvc : vc ∈ config.values) :
    lookupNum ((generatePivotTable data config).rowTotals.getD r []) (aggKeyOf vc)
      = (((generatePivotTable data config).cells.getD r []).map
          (fun cell => lookupNum cell.value (aggKeyOf vc))).sum := by
  have hvalnonempty : config.values.isEmpty = false := by
    cases hv : config.values with
    | nil => rw [hv] at hvc; exact absurd hvc (List.not_mem_nil vc)
    | cons a l => rfl
  rcases lookup_mapAgg config.values (aggKeyOf vc) vc hvc rfl with ⟨vc0, hvc0, hkey0, hlook⟩
  have hagg0 := hagg vc0 hvc0
  set F := filterData data config.filters with hF
  set rowKeys := getNestedKeys F config.rows with hRK
  set colKeys := getNestedKeys F config.columns with hCK
  have hrlen : r < rowKeys.length := by
    have : (generatePivotTable data config).rowTotals = rowKeys.map (mkRowTotal F config) := rfl
    rw [this, List.length_map] at hr
    exact hr
  have hrt : (generatePivotTable data config).rowTotals.getD r []
      = mkRowTotal F config (rowKeys[r]) := by
    have h1 : (generatePivotTable data config).rowTotals = rowKeys.map (mkRowTotal F config) := rfl
    rw [h1, getD_of_lt _ r [] (by rw [List.length_map]; exact hrlen), List.getElem_map]
  have hcells : (generatePivotTable data config).cells.getD r []
      = mkRow F config colKeys (rowKeys[r]) := by
    have h1 : (generatePivotTable data config).cells = rowKeys.map (mkRow F config colKeys) := rfl
    rw [h1, getD_of_lt _ r [] (by rw [List.length_map]; exact hrlen), List.getElem_map]
  set rk := rowKeys[r] with hrk
  have hcvf : ∀ subset : List Rec, cellValueFor config.values subset
      = config.values.map (fun c => (aggKeyOf c, aggregate subset c.field c.aggregation)) := by
    intro subset
    unfold cellValueFor
    rw [if_neg (by simp [hvalnonempty])]
  have hlookupNum : ∀ subset : List Rec,
      lookupNum (cellValueFor config.values subset) (aggKeyOf vc)
        = ((subset.map (aggContrib vc0.aggregation vc0.field)).sum) := by
    intro subset
    unfold lookupNum
    rw [hcvf subset, hlook subset, aggregate_eq_sum_contrib subset vc0.field vc0.aggregation hagg0]
  rw [hrt, hcells]
  unfold mkRowTotal mkRow
  rw [hlookupNum]
  have hcellmap : (colKeys.map (mkCell F config rk)).map
      (fun cell => lookupNum cell.value (aggKeyOf vc))
      = colKeys.map (fun ck =>
          ((getSubsetData F rk ck config.rows config.columns).map
            (aggContrib vc0.aggregation vc0.field)).sum) := by
    rw [List.map_map]
    refine List.map_congr_left ?_
    intro ck _
    show lookupNum (mkCell F config rk ck).value (aggKeyOf vc) = _
    unfold mkCell
    rw [hlookupNum]
  rw [hcellmap, hCK, getNestedKeys_eq_combosFrom]
  exact (row_partition_sum F config.rows config.columns rk vc0.aggregation vc0.field).symm

/-- Closed witness for C2 at the example scenario, row 0. -/
theorem c2_row_total_consistency_witness :
    lookupNum ((generatePivotTable exampleData exampleConfig).rowTotals.getD 0 [])
        (aggKeyOf { field := "sales", aggregation := AggregationFunction.sum })
      = (((generatePivotTable exampleData exampleConfig).cells.getD 0 []).map
          (fun cell => lookupNum cell.value
            (aggKeyOf { field := "sales", aggregation := AggregationFunction.sum }))).sum :=
  c2_row_total_consistency exampleData exampleConfig (by decide) 0 (by decide)
    { field := "sales", aggregation := AggregationFunction.sum } (by decide)


/-! ## Every filtered record lies in exactly one cell (C9) -/

/-- Default cell used with `List.getD` in index-based statements. -/
def defaultCell : PivotCell :=
  { value := [], rowKeys := [], columnKeys := [], data := [] }

theorem matching_index_exists (F : List Rec) (fields : List String) (x : Rec)
    (hx : x ∈ F) :
    ∃ i, ∃ hi : i < (combosFrom F fields).length,
      (combosFrom F fields).get ⟨i, hi⟩ = coerceTuple x fields := by
  rcases List.getElem_of_mem (coerceTuple_mem_combosFrom F fields x hx) with ⟨i, hi, he⟩
  exact ⟨i, hi, he⟩

theorem matching_index_unique (F : List Rec) (fields : List String) (x : Rec)
    (i j : Nat) (hi : i < (combosFrom F fields).length)
    (hj : j < (combosFrom F fields).length)
    (hmi : matchesKeys x fields ((combosFrom F fields).get ⟨i, hi⟩) = true)
    (hmj : matchesKeys x fields ((combosFrom F fields).get ⟨j, hj⟩) = true) : i = j := by
  have e1 : (combosFrom F fields).get ⟨i, hi⟩ = coerceTuple x fields :=
    (matchesKeys_iff_eq_tuple x fields _
      (length_of_mem_combosFrom F fields _ (List.get_mem _ _ _))).mp hmi
  have e2 : (combosFrom F fields).get ⟨j, hj⟩ = coerceTuple x fields :=
    (matchesKeys_iff_eq_tuple x fields _
      (length_of_mem_combosFrom F fields _ (List.get_mem _ _ _))).mp hmj
  have hnd := combosFrom_nodup F fields
  have := (hnd.get_inj_iff).mp (e1.trans e2.symm)
  exact Fin.mk.inj_iff.mp this

/-- C9.  Every record of the filtered set belongs to exactly one cell of
the grid, and the data arrays of any row's cells partition the record
subset aggregated for that row's total. -/
theorem c9_cells_partition (data : List Rec) (config : PivotConfig) (item : Rec) (r : Nat)
    (hitem : item ∈ filterData data config.filters)
    (hr : r < (generatePivotTable data config).cells.length) :
    (∃! p : Nat × Nat,
        p.1 < (generatePivotTable data config).cells.length ∧
        p.2 < ((generatePivotTable data config).cells.getD p.1 []).length ∧
        item ∈ (((generatePivotTable data config).cells.getD p.1 []).getD p.2 defaultCell).data)
    ∧ (∀ x : Rec,
        x ∈ getSubsetData (filterData data config.filters)
              ((generatePivotTable data config).rowHeaders.getD r []) [] config.rows []
          ↔ ∃! c : Nat,
              c < ((generatePivotTable data config).cells.getD r []).length ∧
              x ∈ (((generatePivotTable data config).cells.getD r []).getD c defaultCell).data) := by
  set F := filterData data config.filters with hF
  have hcellsdef : (generatePivotTable data config).cells
      = (combosFrom F config.rows).map (mkRow F config (combosFrom F config.columns)) := by
    show (getNestedKeys F config.rows).map (mkRow F config (getNestedKeys F config.columns)) = _
    rw [getNestedKeys_eq_combosFrom, getNestedKeys_eq_combosFrom]
  have hheaddef : (generatePivotTable data config).rowHeaders = combosFrom F config.rows := by
    show getNestedKeys F config.rows = _
    rw [getNestedKeys_eq_combosFrom]
  set RK := combosFrom F config.rows with hRK
  set CK := combosFrom F config.columns with hCK
  have hlencells : (generatePivotTable data config).cells.length = RK.length := by
    rw [hcellsdef, List.length_map]
  have hrowAt : ∀ i, ∀ hi : i < RK.length,
      (generatePivotTable data config).cells.getD i [] = mkRow F config CK (RK.get ⟨i, hi⟩) := by
    intro i hi
    rw [hcellsdef, getD_of_lt _ i [] (by rw [List.length_map]; exact hi), List.getElem_map]
    rfl
  have hrowlen : ∀ i, ∀ hi : i < RK.length,
      ((generatePivotTable data config).cells.getD i []).length = CK.length := by
    intro i hi
    rw [hrowAt i hi]
    unfold mkRow
    rw [List.length_map]
  have hcellAt : ∀ i j, ∀ hi : i < RK.length, ∀ hj : j < CK.length,
      ((generatePivotTable data config).cells.getD i []).getD j defaultCell
        = mkCell F config (RK.get ⟨i, hi⟩) (CK.get ⟨j, hj⟩) := by
    intro i j hi hj
    rw [hrowAt i hi]
    unfold mkRow
    rw [getD_of_lt _ j defaultCell (by rw [List.length_map]; exact hj), List.getElem_map]
    rfl
  have hmemcell : ∀ (x : Rec) i j, ∀ hi : i < RK.length, ∀ hj : j < CK.length,
      (x ∈ (((generatePivotTable data config).cells.getD i []).getD j defaultCell).data
        ↔ x ∈ F ∧ matchesKeys x config.rows (RK.get ⟨i, hi⟩) = true
            ∧ matchesKeys x config.columns (CK.get ⟨j, hj⟩) = true) := by
    intro x i j hi hj
    rw [hcellAt i j hi hj]
    show x ∈ getSubsetData F (RK.get ⟨i, hi⟩) (CK.get ⟨j, hj⟩) config.rows config.columns ↔ _
    exact mem_getSubsetData F _ _ _ _ x
  have hrlen : r < RK.length := by rw [← hlencells]; exact hr
  constructor
  · -- every filtered record lies in exactly one cell
    rcases matching_index_exists F config.rows item hitem with ⟨ri, hri, hre⟩
    rcases matching_index_exists F config.columns item hitem with ⟨ci, hci, hce⟩
    refine ⟨⟨ri, ci⟩, ⟨?_, ?_, ?_⟩, ?_⟩
    · rw [hlencells]; exact hri
    · rw [hrowlen ri hri]; exact hci
    · rw [hmemcell item ri ci hri hci]
      refine ⟨hitem, ?_, ?_⟩
      · rw [hre]; exact matchesKeys_self item config.rows
      · rw [hce]; exact matchesKeys_self item config.columns
    · rintro ⟨qr, qc⟩ ⟨hq1, hq2, hq3⟩
      have hqr : qr < RK.length := by rw [← hlencells]; exact hq1
      have hqc : qc < CK.length := by rw [← hrowlen qr hqr]; exact hq2
      rw [hmemcell item qr qc hqr hqc] at hq3
      rcases hq3 with ⟨_, hmr, hmc⟩
      have her : qr = ri := by
        refine matching_index_unique F config.rows item qr ri hqr hri hmr ?_
        rw [hre]; exact matchesKeys_self item config.rows
      have hec : qc = ci := by
        refine matching_index_unique F config.columns item qc ci hqc hci hmc ?_
        rw [hce]; exact matchesKeys_self item config.columns
      exact Prod.ext her hec
  · -- row r's cells partition the row-total subset
    intro x
    have hhead : (generatePivotTable data config).rowHeaders.getD r [] = RK.get ⟨r, hrlen⟩ := by
      rw [hheaddef, getD_of_lt _ r [] hrlen]
      exact (List.get_eq_getElem RK ⟨r, hrlen⟩).symm
    constructor
    · intro hx
      rw [hhead, mem_getSubsetData] at hx
      rcases hx with ⟨hxF, hmr, _⟩
      rcases matching_index_exists F config.columns x hxF with ⟨ci, hci, hce⟩
      refine ⟨ci, ⟨?_, ?_⟩, ?_⟩
      · rw [hrowlen r hrlen]; exact hci
      · rw [hmemcell x r ci hrlen hci]
        refine ⟨hxF, hmr, ?_⟩
        rw [hce]; exact matchesKeys_self x config.columns
      · rintro qc ⟨hq1, hq2⟩
        have hqc : qc < CK.length := by rw [← hrowlen r hrlen]; exact hq1
        rw [hmemcell x r qc hrlen hqc] at hq2
        rcases hq2 with ⟨_, _, hmc⟩
        refine matching_index_unique F config.columns x qc ci hqc hci hmc ?_
        rw [hce]; exact matchesKeys_self x config.columns
    · rintro ⟨c, ⟨hc1, hc2⟩, _⟩
      have hcc : c < CK.length := by rw [← hrowlen r hrlen]; exact hc1
      rw [hmemcell x r c hrlen hcc] at hc2
      rcases hc2 with ⟨hxF, hmr, _⟩
      rw [hhead, mem_getSubsetData]
      exact ⟨hxF, hmr, rfl⟩

/-- Closed witness for C9 at the example scenario: the first record and
row 0. -/
theorem c9_cells_partition_witness :
    (∃! p : Nat × Nat,
        p.1 < (generatePivotTable exampleData exampleConfig).cells.length ∧
        p.2 < ((generatePivotTable exampleData exampleConfig).cells.getD p.1 []).length ∧
        exampleRecord "North" "A" 100 ∈
          (((generatePivotTable exampleData exampleConfig).cells.getD p.1 []).getD p.2
            defaultCell).data)
    ∧ (∀ x : Rec,
        x ∈ getSubsetData (filterData exampleData exampleConfig.filters)
              ((generatePivotTable exampleData exampleConfig).rowHeaders.getD 0 []) []
              exampleConfig.rows []
          ↔ ∃! c : Nat,
              c < ((generatePivotTable exampleData exampleConfig).cells.getD 0 []).length ∧
              x ∈ (((generatePivotTable exampleData exampleConfig).cells.getD 0 []).getD c
                defaultCell).data) :=
  c9_cells_partition exampleData exampleConfig (exampleRecord "North" "A" 100) 0
    (by decide) (by decide)


/-! ## The header list is the sorted cartesian product (C3) -/

/-- The header list as the specification words it: for each field, in
order, its sorted distinct coerced values; combined as a cartesian product
with the first (outermost) field varying slowest. -/
def specHeaderList (data : List Rec) (fields : List String) : List (List String) :=
  (fields.map (fun f => sortSmart (distinctVals (data.map (fun item => coerceField item f))))).foldr
    (fun vs acc => vs.flatMap (fun v => acc.map (fun c => v :: c))) [[]]

theorem combosFrom_eq_specHeaderList (data : List Rec) (fields : List String) :
    combosFrom data fields = specHeaderList data fields := by
  induction fields with
  | nil => rfl
  | cons f fs ih =>
    show (sortedUniqueVals data f).flatMap
        (fun v => (combosFrom data fs).map (fun sub => v :: sub)) = _
    unfold specHeaderList
    rw [List.map_cons, List.foldr_cons]
    unfold specHeaderList at ih
    rw [← ih]
    rfl

/-- C3.  For a non-empty grouping-field list the derived header list is
exactly the cartesian product of the per-field sorted distinct coerced
values, first field varying slowest, and a combination is listed exactly
when it pairs one distinct coerced value per field — including
combinations matched by zero records. -/
theorem c3_headers_cartesian_product (data : List Rec) (fields : List String)
    (_hne : fields ≠ []) :
    getNestedKeys data fields = specHeaderList data fields
    ∧ (∀ combo : List String,
        combo ∈ getNestedKeys data fields ↔
          List.Forall₂ (fun v f => v ∈ distinctVals (data.map (fun item => coerceField item f)))
            combo fields) := by
  constructor
  · rw [getNestedKeys_eq_combosFrom]
    exact combosFrom_eq_specHeaderList data fields
  · intro combo
    rw [getNestedKeys_eq_combosFrom, mem_combosFrom]
    constructor
    · intro h
      refine List.Forall₂.imp ?_ h
      intro a b hab
      exact (mem_distinctVals _ a).mpr hab
    · intro h
      refine List.Forall₂.imp ?_ h
      intro a b hab
      exact (mem_distinctVals _ a).mp hab

/-- Closed witness for C3 on the example data with two grouping fields. -/
theorem c3_headers_cartesian_product_witness :
    getNestedKeys exampleData ["region", "product"]
        = specHeaderList exampleData ["region", "product"]
    ∧ (∀ combo : List String,
        combo ∈ getNestedKeys exampleData ["region", "product"] ↔
          List.Forall₂
            (fun v f => v ∈ distinctVals (exampleData.map (fun item => coerceField item f)))
            combo ["region", "product"]) :=
  c3_headers_cartesian_product exampleData ["region", "product"] (by decide)

/-! ## Cardinality validation of the asynchronous builder (C4) -/

theorem validateFields_error (data : List Rec) (ax : Axis) (threshold : Nat)
    (fields : List String) (e : PivotError)
    (h : validateFields data (some ax) threshold fields = Except.error e) :
    ∃ f ∈ fields, e = PivotError.validationErr f ax (distinctCount data f)
      ∧ threshold < distinctCount data f := by
  induction fields with
  | nil => exact absurd h (by simp [validateFields])
  | cons f fs ih =>
    unfold validateFields at h
    by_cases hc : threshold < distinctCount data f
    · rw [if_pos hc] at h
      have he : PivotError.validationErr f ax (distinctCount data f) = e := Except.error.inj h
      exact ⟨f, List.mem_cons_self f fs, he.symm, hc⟩
    · rw [if_neg hc] at h
      rcases ih h with ⟨g, hg, hge, hgt⟩
      exact ⟨g, List.mem_cons_of_mem f hg, hge, hgt⟩

theorem validateFields_not_ok (data : List Rec) (ax : Axis) (threshold : Nat)
    (fields : List String)
    (h : ∃ f ∈ fields, threshold < distinctCount data f) :
    ∃ e, validateFields data (some ax) threshold fields = Except.error e := by
  induction fields with
  | nil => rcases h with ⟨f, hf, _⟩; exact absurd hf (List.not_mem_nil f)
  | cons f fs ih =>
    by_cases hc : threshold < distinctCount data f
    · refine ⟨PivotError.validationErr f ax (distinctCount data f), ?_⟩
      unfold validateFields
      rw [if_pos hc]
    · rcases h with ⟨g, hg, hgt⟩
      have hgfs : g ∈ fs := by
        rcases List.mem_cons.mp hg with h1 | h1
        · exact absurd (h1 ▸ hgt) hc
        · exact h1
      rcases ih ⟨g, hgfs, hgt⟩ with ⟨e, he⟩
      refine ⟨e, ?_⟩
      unfold validateFields
      rw [if_neg hc]
      exact he

theorem getNestedKeysAsync_error (data : List Rec) (fields : List String) (ft : Option Axis)
    (threshold : Nat) (e : PivotError)
    (h : getNestedKeysAsync data fields ft threshold = Except.error e) :
    validateFields data ft threshold fields = Except.error e := by
  unfold getNestedKeysAsync at h
  by_cases he : fields.isEmpty
  · rw [if_pos he] at h
    exact Except.noConfusion h
  · rw [if_neg he] at h
    cases hv : validateFields data ft threshold fields with
    | error e2 =>
      rw [hv] at h
      have h2 : Except.error (α := List (List String)) (ε := PivotError) e2 = Except.error e := h
      exact congrArg Except.error (Except.error.inj h2)
    | ok u =>
      rw [hv] at h
      exact Except.noConfusion h

theorem getNestedKeysAsync_ok_bound (data : List Rec) (fields : List String) (ax : Axis)
    (threshold : Nat) (keys : List (List String))
    (h : getNestedKeysAsync data fields (some ax) threshold = Except.ok keys) :
    ∀ f ∈ fields, distinctCount data f ≤ threshold := by
  intro f hf
  by_contra hgt
  push_neg at hgt
  have hne : fields.isEmpty = false := by
    cases fields with
    | nil => exact absurd hf (List.not_mem_nil f)
    | cons a l => rfl
  rcases validateFields_not_ok data ax threshold fields ⟨f, hf, hgt⟩ with ⟨e, he⟩
  unfold getNestedKeysAsync at h
  rw [if_neg (by simp [hne]), he] at h
  exact Except.noConfusion h

/-- The axis's grouping-field list. -/
def axisFields (config : PivotConfig) : Axis → List String
  | Axis.row => config.rows
  | Axis.col => config.columns

/-- C4.  With no cancellation, `generatePivotTableAsync` fails with a
cardinality-exceeded condition exactly when some grouping field has
strictly more than `limit` distinct coerced values over the filtered
records; the raised condition carries the field's name, its axis and the
observed distinct count, and a column-axis violation is only reported when
no row field violates the limit. -/
theorem c4_cardinality_validation (data : List Rec) (config : PivotConfig) (limit : Nat) :
    ((∃ f ax c, generatePivotTableAsync data config false limit
        = Except.error (PivotError.validationErr f ax c))
      ↔ (∃ f ∈ config.rows ++ config.columns,
          limit < distinctCount (filterData data config.filters) f))
    ∧ (∀ f ax c,
        generatePivotTableAsync data config false limit
            = Except.error (PivotError.validationErr f ax c) →
          f ∈ axisFields config ax
          ∧ c = distinctCount (filterData data config.filters) f
          ∧ limit < c
          ∧ (ax = Axis.col →
              ∀ g ∈ config.rows, distinctCount (filterData data config.filters) g ≤ limit)) := by
  set F := filterData data config.filters with hF
  cases hrow : getNestedKeysAsync F config.rows (some Axis.row) limit with
  | error e =>
    have hval := getNestedKeysAsync_error F config.rows (some Axis.row) limit e hrow
    rcases validateFields_error F Axis.row limit config.rows e hval with ⟨f, hf, he, hgt⟩
    have hR : generatePivotTableAsync data config false limit = Except.error e := by
      unfold generatePivotTableAsync
      rw [if_neg (by simp), hrow]
    subst he
    constructor
    · constructor
      · intro _
        exact ⟨f, List.mem_append.mpr (Or.inl hf), hgt⟩
      · intro _
        exact ⟨f, Axis.row, distinctCount F f, hR⟩
    · intro f2 ax2 c2 hEq
      rw [hR] at hEq
      have hinj := Except.error.inj hEq
      injection hinj with h1 h2 h3
      subst h1; subst h2; subst h3
      refine ⟨hf, rfl, hgt, ?_⟩
      intro hcol
      exact absurd hcol (by simp)
  | ok rowKeys =>
    have hrowsok : ∀ g ∈ config.rows, distinctCount F g ≤ limit :=
      getNestedKeysAsync_ok_bound F config.rows Axis.row limit rowKeys hrow
    cases hcol : getNestedKeysAsync F config.columns (some Axis.col) limit with
    | error e =>
      have hval := getNestedKeysAsync_error F config.columns (some Axis.col) limit e hcol
      rcases validateFields_error F Axis.col limit config.columns e hval with ⟨f, hf, he, hgt⟩
      have hR : generatePivotTableAsync data config false limit = Except.error e := by
        unfold generatePivotTableAsync
        rw [if_neg (by simp), hrow, hcol]
      subst he
      constructor
      · constructor
        · intro _
          exact ⟨f, List.mem_append.mpr (Or.inr hf), hgt⟩
        · intro _
          exact ⟨f, Axis.col, distinctCount F f, hR⟩
      · intro f2 ax2 c2 hEq
        rw [hR] at hEq
        have hinj := Except.error.inj hEq
        injection hinj with h1 h2 h3
        subst h1; subst h2; subst h3
        exact ⟨hf, rfl, hgt, fun _ => hrowsok⟩
    | ok colKeys =>
      have hcolsok : ∀ g ∈ config.columns, distinctCount F g ≤ limit :=
        getNestedKeysAsync_ok_bound F config.columns Axis.col limit colKeys hcol
      have hR : generatePivotTableAsync data config false limit
          = Except.ok (generatePivotTable data config) :=
        generatePivotTableAsync_ok data config limit hrowsok hcolsok
      constructor
      · constructor
        · rintro ⟨f, ax, c, hEq⟩
          rw [hR] at hEq
          exact Except.noConfusion hEq
        · rintro ⟨f, hf, hgt⟩
          rcases List.mem_append.mp hf with h1 | h1
          · exact absurd hgt (Nat.not_lt.mpr (hrowsok f h1))
          · exact absurd hgt (Nat.not_lt.mpr (hcolsok f h1))
      · intro f2 ax2 c2 hEq
        rw [hR] at hEq
        exact Except.noConfusion hEq

/-- Closed witness for C4: with limit 3 the example data's `region` field
(4 distinct values, row axis) is reported. -/
theorem c4_cardinality_validation_witness :
    ∃ f ax c, generatePivotTableAsync exampleData exampleConfig false 3
      = Except.error (PivotError.validationErr f ax c) :=
  (c4_cardinality_validation exampleData exampleConfig 3).1.mpr
    ⟨"region", by decide, by decide⟩


/-! ## Pre-cancelled invocation (C5) -/

/-- C5.  If the cancellation token is already in the cancelled state at
invocation, the asynchronous builder fails with the cancelled condition —
a condition distinct from every cardinality-exceeded condition — and no
table, not even a partial one, is produced. -/
theorem c5_pre_cancelled_aborts (data : List Rec) (config : PivotConfig) (limit : Nat) :
    generatePivotTableAsync data config true limit = Except.error PivotError.abortedErr
    ∧ (∀ f ax c, PivotError.abortedErr ≠ PivotError.validationErr f ax c)
    ∧ (∀ table : PivotTable, generatePivotTableAsync data config true limit ≠ Except.ok table) := by
  refine ⟨?_, ?_, ?_⟩
  · unfold generatePivotTableAsync
    rw [if_pos rfl]
  · intro f ax c hc
    exact PivotError.noConfusion hc
  · intro table hc
    unfold generatePivotTableAsync at hc
    rw [if_pos rfl] at hc
    exact Except.noConfusion hc

/-! ## Empty input records (C6) -/

/-- The configuration with no grouping fields, no value fields and no
filters. -/
def emptyConfig : PivotConfig := { rows := [], columns := [], values := [], filters := [] }

/-- C6 counterexample: the claim asserts `cells = []` for every config on
empty records, but with empty `config.rows` the grid has one row holding
one cell (per column header), so `cells ≠ []`. -/
theorem c6_counterexample :
    (generatePivotTable [] emptyConfig).rowHeaders = [[]]
    ∧ (generatePivotTable [] emptyConfig).cells ≠ [] := by
  refine ⟨rfl, ?_⟩
  decide

/-- The empty-input aggregate defaults: `{"Count": 0}` with no value
fields, otherwise `0` under each `"<field> (<aggregation>)"` key. -/
def emptyAggDefaults (valueConfigs : List ValueFieldConfig) : AggregatedValues :=
  if valueConfigs.isEmpty then [("Count", AggVal.num 0)]
  else valueConfigs.map (fun vc => (aggKeyOf vc, AggVal.num 0))

theorem getNestedKeys_nil_data (fields : List String) :
    getNestedKeys ([] : List Rec) fields = if fields = [] then [[]] else [] := by
  cases fields with
  | nil => rfl
  | cons f fs =>
    rw [if_neg (List.cons_ne_nil f fs)]
    rfl

theorem cellValueFor_nil (valueConfigs : List ValueFieldConfig) :
    cellValueFor valueConfigs [] = emptyAggDefaults valueConfigs := by
  unfold cellValueFor emptyAggDefaults
  by_cases hv : valueConfigs.isEmpty
  · rw [if_pos hv, if_pos hv]
    simp
  · rw [if_neg hv, if_neg hv]
    refine List.map_congr_left ?_
    intro vc _
    rfl

/-- C6 (amended).  On empty records: `rowHeaders` is `[[]]` when
`config.rows` is empty and `[]` otherwise (symmetrically for columns);
`cells` is `[]` when `config.rows` is non-empty, and when `config.rows` is
empty it is a single row holding one empty-data cell per column header,
each populated with the empty-input defaults; `grandTotal` carries the
empty-input aggregate defaults. -/
theorem c6_empty_records_amended (config : PivotConfig) :
    (generatePivotTable [] config).rowHeaders = (if config.rows = [] then [[]] else [])
    ∧ (generatePivotTable [] config).columnHeaders = (if config.columns = [] then [[]] else [])
    ∧ (generatePivotTable [] config).cells
        = (if config.rows = [] then
            [(generatePivotTable [] config).columnHeaders.map (fun colKey =>
              { value := emptyAggDefaults config.values, rowKeys := [], columnKeys := colKey,
                data := [] : PivotCell })]
          else [])
    ∧ (generatePivotTable [] config).grandTotal = emptyAggDefaults config.values := by
  have hF : filterData [] config.filters = [] := rfl
  have hrh : (generatePivotTable [] config).rowHeaders = getNestedKeys [] config.rows := rfl
  have hch : (generatePivotTable [] config).columnHeaders = getNestedKeys [] config.columns := rfl
  refine ⟨?_, ?_, ?_, ?_⟩
  · rw [hrh, getNestedKeys_nil_data]
  · rw [hch, getNestedKeys_nil_data]
  · have hcells : (generatePivotTable [] config).cells
        = (getNestedKeys [] config.rows).map
            (mkRow [] config (getNestedKeys [] config.columns)) := rfl
    by_cases hr : config.rows = []
    · rw [if_pos hr, hcells]
      have hrk : getNestedKeys ([] : List Rec) config.rows = [[]] := by
        rw [getNestedKeys_nil_data, if_pos hr]
      rw [hrk, List.map_cons, List.map_nil]
      have hone : mkRow [] config (getNestedKeys [] config.columns) []
          = ((generatePivotTable [] config).columnHeaders).map
              (fun colKey => { value := emptyAggDefaults config.values, rowKeys := [],
                               columnKeys := colKey, data := [] : PivotCell }) := by
        unfold mkRow
        rw [hch]
        refine List.map_congr_left ?_
        intro colKey _
        show ({ value := cellValueFor config.values [], rowKeys := [], columnKeys := colKey,
                data := [] } : PivotCell) = _
        rw [cellValueFor_nil]
      rw [hone]
    · rw [if_neg hr, hcells]
      have hrk : getNestedKeys ([] : List Rec) config.rows = [] := by
        rw [getNestedKeys_nil_data, if_neg hr]
      rw [hrk, List.map_nil]
  · have hgt : (generatePivotTable [] config).grandTotal
        = cellValueFor config.values (filterData [] config.filters) := rfl
    rw [hgt, hF, cellValueFor_nil]

/-! ## Empty-subset behaviour of string-returning aggregations (C7) -/

/-- C7.  On an empty record subset the string-returning aggregations
`first`, `last` and `listUnique` all return the numeric literal `0` — not
an empty string and not an empty array. -/
theorem c7_empty_string_aggs_return_zero (field : String) :
    aggregate [] field AggregationFunction.first = AggVal.num 0
    ∧ aggregate [] field AggregationFunction.last = AggVal.num 0
    ∧ aggregate [] field AggregationFunction.listUnique = AggVal.num 0
    ∧ (AggVal.num 0 ≠ AggVal.strv "") ∧ (AggVal.num 0 ≠ AggVal.list []) := by
  refine ⟨rfl, rfl, rfl, ?_, ?_⟩ <;> intro h <;> exact AggVal.noConfusion h

/-! ## Per-value integer parsing of `integerSum` (C8) -/

/-- C8.  `integerSum` totals the integer parses of each non-null field
value taken independently (values that fail to parse contribute nothing);
`"20.9"` parses to `20`, so two such records total `40` — per-value
truncating parse, not truncation of the float sum (`41.8 → 41`) and not
rounding (`21 + 21 = 42`). -/
theorem c8_integerSum_per_value (data : List Rec) (field : String) :
    aggregate data field AggregationFunction.integerSum
        = AggVal.num (((data.map (intContrib field)).sum : Int) : Rat)
    ∧ parseIntJ "20.9" = some 20
    ∧ aggregate [[("x", JVal.jstr "20.9")], [("x", JVal.jstr "20.9")]] "x"
        AggregationFunction.integerSum = AggVal.num 40 := by
  refine ⟨?_, by decide, by decide⟩
  rw [aggregate_eq_sum_contrib data field AggregationFunction.integerSum (Or.inr (Or.inr rfl))]
  congr 1
  rw [cast_sum_int_map]
  rfl

/-! ## `first`/`last` on an all-null non-empty subset (C10) -/

/-- C10.  On a non-empty record subset whose values at the target field
are all null or undefined, `first` and `last` return the empty string,
not the number `0`; the numeric empty-input default applies only to the
empty subset itself. -/
theorem c10_first_last_all_null (data : List Rec) (field : String)
    (hne : data ≠ [])
    (hnull : ∀ item ∈ data, getF item field = JVal.jnull ∨ getF item field = JVal.jundef) :
    aggregate data field AggregationFunction.first = AggVal.strv ""
    ∧ aggregate data field AggregationFunction.last = AggVal.strv ""
    ∧ (AggVal.strv "" ≠ AggVal.num 0)
    ∧ aggregate [] field AggregationFunction.first = AggVal.num 0
    ∧ aggregate [] field AggregationFunction.last = AggVal.num 0 := by
  have hvals : valuesOf data field = [] := by
    unfold valuesOf
    rw [List.filter_eq_nil_iff]
    intro v hv
    rcases List.mem_map.mp hv with ⟨item, hitem, rfl⟩
    rcases hnull item hitem with h | h <;> rw [h] <;> decide
  have hie : data.isEmpty = false := by
    cases data with
    | nil => exact absurd rfl hne
    | cons a l => rfl
  refine ⟨?_, ?_, ?_, rfl, rfl⟩
  · unfold aggregate
    rw [if_neg (by simp [hie]), hvals]
  · unfold aggregate
    rw [if_neg (by simp [hie]), hvals]
    rfl
  · intro h
    exact AggVal.noConfusion h

/-- Closed witness for C10: one record whose field value is null. -/
theorem c10_first_last_all_null_witness :
    aggregate [[("x", JVal.jnull)]] "x" AggregationFunction.first = AggVal.strv ""
    ∧ aggregate [[("x", JVal.jnull)]] "x" AggregationFunction.last = AggVal.strv ""
    ∧ (AggVal.strv "" ≠ AggVal.num 0)
    ∧ aggregate [] "x" AggregationFunction.first = AggVal.num 0
    ∧ aggregate [] "x" AggregationFunction.last = AggVal.num 0 :=
  c10_first_last_all_null [[("x", JVal.jnull)]] "x" (by decide) (by decide)


end PivotGrid
